import Mathlib

/-!
Shallow embedding of the image-archiver bot (`src/bot.py`) and proofs of the
specification claims about it.

The embedding models:
* the message/attachment/embed data reachable by `find_latest_image`;
* `find_latest_image` itself (a pure scan over the newest-first history,
  bounded to 30 messages);
* one cycle of the `runner` polling loop, with the outcomes of each awaited
  operation (history fetch, image download, repost send, warning send, sleep)
  supplied explicitly so that exception and cancellation paths are captured;
* the `/archieved` command handler: owner check, mode validation, and the
  start/stop manipulation of the `_active_archives` task registry.
-/

namespace Peru

/-- One attachment of a message: `a.content_type` (may be absent) and `a.url`. -/
structure Attachment where
  content_type : Option String
  url : String
deriving DecidableEq, Repr

/-- The `image` field of an embed: its `url` may be absent. -/
structure EmbedImg where
  url : Option String
deriving DecidableEq, Repr

/-- One embed of a message; `image` may be absent. -/
structure Embed where
  image : Option EmbedImg
deriving DecidableEq, Repr

/-- A channel message as far as `find_latest_image` inspects it:
`msg.id`, `msg.edited_at` (absent when never edited), `msg.attachments`,
`msg.embeds`. Timestamps are modelled as naturals. -/
structure Message where
  id : Nat
  edited_at : Option Nat
  attachments : List Attachment
  embeds : List Embed
deriving DecidableEq, Repr

/-- `msg.edited_at.timestamp() if msg.edited_at else 0` (bot.py line 52). -/
def editedOf (m : Message) : Nat :=
  m.edited_at.getD 0

/-- Python `s.startswith(p)`, on the character sequences of the strings. -/
def pyStartsWith (s p : String) : Bool :=
  p.data.isPrefixOf s.data

/-- `(a.content_type or "").startswith("image/")` (bot.py line 55). -/
def isImageAttachment (a : Attachment) : Bool :=
  pyStartsWith (a.content_type.getD "") "image/"

/-- Python truthiness of an optional string: `None` and `""` are falsy. -/
def pyTruthy : Option String → Bool
  | none => false
  | some s => s != ""

/-- `e.image and e.image.url` (bot.py line 60): the embed's image URL when the
image is present and its URL is truthy, otherwise `none`. -/
def embedImageUrl (e : Embed) : Option String :=
  match e.image with
  | none => none
  | some img => if pyTruthy img.url then img.url else none

/-- The signature string `f"{msg.id}:{edited}:{url}"` (bot.py lines 56, 61). -/
def mkSig (i e : Nat) (url : String) : String :=
  Nat.repr i ++ ":" ++ Nat.repr e ++ ":" ++ url

/-- The body of the `async for` loop of `find_latest_image` (bot.py
lines 51-64), scanning messages newest first: within each message, the
attachments are checked in order, then the embeds; the first hit returns
`(sig, url)` immediately. -/
def scanImages : List Message → Option String × Option String
  | [] => (none, none)
  | m :: rest =>
    match m.attachments.find? isImageAttachment with
    | some a => (some (mkSig m.id (editedOf m) a.url), some a.url)
    | none =>
      match m.embeds.findSome? embedImageUrl with
      | some u => (some (mkSig m.id (editedOf m) u), some u)
      | none => scanImages rest

/-- `find_latest_image` (bot.py lines 50-64): the history is given newest
first, and `channel.history(limit=30, oldest_first=False)` bounds the scan to
the 30 most recent messages. -/
def find_latest_image (history : List Message) : Option String × Option String :=
  scanImages (history.take 30)

/-- The first image URL of one message, attachments before embeds — the
value the scan would extract from this message if reached. -/
def msgImageUrl (m : Message) : Option String :=
  match m.attachments.find? isImageAttachment with
  | some a => some a.url
  | none => m.embeds.findSome? embedImageUrl

/-- Whether a message contributes an image to the scan. -/
def hasImage (m : Message) : Bool :=
  (msgImageUrl m).isSome

/-! ## One cycle of the `runner` loop (bot.py lines 127-169)

Each awaited operation of a cycle is given an explicit outcome: it may
complete (`ok`), raise `asyncio.CancelledError` (`cancelled`), or raise any
other exception (`err`). At most one sleep happens per cycle (either of the
early-continue sleeps at lines 137/142, or the trailing sleep at line 169),
so a single flag says whether cancellation arrives during that sleep. -/

/-- The outcome of one awaited operation. -/
inductive Outcome (α : Type) where
  | ok (a : α)
  | cancelled
  | err
deriving DecidableEq, Repr

/-- Observable side effects of one cycle, in order of occurrence. -/
inductive Event where
  | repost
  | warned
  | slept
deriving DecidableEq, Repr

/-- The environment of one cycle: what each awaited operation would do if
reached. `extract` is the history fetch driving `find_latest_image`; `fetch`
the image download (`session.get` / `read`); `send` the repost
(`out_ch.send`); `warn` the warning post of the `except Exception` handler;
`sleepCancelled` whether cancellation arrives during the cycle's sleep. -/
structure CycleEnv where
  extract : Outcome (List Message)
  fetch : Outcome Unit
  send : Outcome Unit
  warn : Outcome Unit
  sleepCancelled : Bool
deriving DecidableEq, Repr

/-- The result of one cycle: `none` means the `runner` task terminated
(cancellation reached the loop); `some l` means the loop continues into the
next cycle with recorded signature `l`. -/
abbrev StepRes := Option (Option String) × List Event

/-- The cycle's sleep. Cancellation during the sleep ends the task, whether
the sleep is inside the `try` (lines 137/142: `CancelledError` is caught and
the loop `break`s) or after it (line 169: it propagates out of the loop). -/
def sleepStep (c : Bool) (l : Option String) (evs : List Event) : StepRes :=
  if c then (none, evs) else (some l, evs ++ [Event.slept])

/-- The `except Exception` handler (bot.py lines 161-167): a best-effort
warning post whose own failure is swallowed, then the trailing sleep. A
`CancelledError` raised by the warning post is not caught by the inner
`except Exception` and ends the task. -/
def warnStep (w : Outcome Unit) (c : Bool) (l : Option String) (evs : List Event) : StepRes :=
  match w with
  | Outcome.ok _ => sleepStep c l (evs ++ [Event.warned])
  | Outcome.err => sleepStep c l evs
  | Outcome.cancelled => (none, evs)

/-- One cycle of the `while True` loop of `runner` (bot.py lines 131-169),
from recorded signature `last_sig`. -/
def runnerStep (env : CycleEnv) (last_sig : Option String) : StepRes :=
  match env.extract with
  | Outcome.cancelled => (none, [])
  | Outcome.err => warnStep env.warn env.sleepCancelled last_sig []
  | Outcome.ok history =>
    let found := find_latest_image history
    if !pyTruthy found.1 || !pyTruthy found.2 then
      sleepStep env.sleepCancelled last_sig []
    else if found.1 == last_sig then
      sleepStep env.sleepCancelled last_sig []
    else
      match env.fetch with
      | Outcome.cancelled => (none, [])
      | Outcome.err => warnStep env.warn env.sleepCancelled last_sig []
      | Outcome.ok _ =>
        match env.send with
        | Outcome.cancelled => (none, [])
        | Outcome.err => warnStep env.warn env.sleepCancelled last_sig []
        | Outcome.ok _ => sleepStep env.sleepCancelled found.1 [Event.repost]

/-! ## The `/archieved` command and the task registry (bot.py lines 28-38,
67, 74-125, 171-172) -/

/-- `is_owner` (bot.py lines 28-29); `BOT_OWNER_ID` is passed explicitly as
`ownerId` since it is module-level configuration. -/
def is_owner (ownerId userId : Nat) : Bool :=
  ownerId != 0 && userId == ownerId

/-- `deny_if_not_owner` (bot.py lines 31-38): `true` means the command is
rejected (an ephemeral "Owner-only command." reply was sent). -/
def deny_if_not_owner (ownerId userId : Nat) : Bool :=
  !is_owner ownerId userId

/-- Status of an archiver task, cancellation modelled as immediate. -/
inductive TaskStatus where
  | running
  | completed
  | cancelledTask
deriving DecidableEq, Repr

/-- `task.done()`: the task has completed or been cancelled. -/
def taskDone : TaskStatus → Bool
  | TaskStatus.running => false
  | TaskStatus.completed => true
  | TaskStatus.cancelledTask => true

/-- An owning key `(interaction.guild_id or 0, interaction.user.id)`. -/
abbrev Key := Nat × Nat

/-- The `_active_archives` dict as an association list, plus the status of
every task ever created (`status`) and a fresh-id counter (`nextId`). -/
structure World where
  reg : List (Key × Nat)
  status : Nat → TaskStatus
  nextId : Nat

/-- Dict lookup by exact key equality. -/
def regLookup (k : Key) : List (Key × Nat) → Option Nat
  | [] => none
  | (k', t) :: rest => if k' = k then some t else regLookup k rest

/-- Dict `pop(key, None)`: the mapping with `k` removed. -/
def regErase (k : Key) : List (Key × Nat) → List (Key × Nat)
  | [] => []
  | (k', t) :: rest => if k' = k then regErase k rest else (k', t) :: regErase k rest

/-- `task.cancel()` on task `tid`. -/
def cancelTask (tid : Nat) (w : World) : World :=
  { w with status := fun x => if x = tid then TaskStatus.cancelledTask else w.status x }

/-- `old = _active_archives.pop(key, None); if old and not old.done():
old.cancel()` (bot.py lines 114-116). -/
def popAndCancel (k : Key) (w : World) : World :=
  let old := regLookup k w.reg
  let w1 := { w with reg := regErase k w.reg }
  match old with
  | none => w1
  | some tid => if taskDone (w.status tid) then w1 else cancelTask tid w1

/-- The start branch (bot.py lines 114-172): pop and cancel any previous
task under the key, then create the fresh `runner` task and register it. -/
def archStart (k : Key) (w : World) : World :=
  let w1 := popAndCancel k w
  { w1 with
    reg := (k, w1.nextId) :: w1.reg
    status := fun x => if x = w1.nextId then TaskStatus.running else w1.status x
    nextId := w1.nextId + 1 }

/-- The user-visible reply of one `/archieved` invocation. -/
inductive Reply where
  | ownerOnly
  | badMode
  | stopped
  | nothingToStop
  | srcError
  | outError
  | started
deriving DecidableEq, Repr

/-- The stop branch (bot.py lines 93-100): `pop(key, None)` always removes
the entry; only a live (`not task.done()`) task is cancelled and reported
stopped, otherwise the reply is "No active /archieved running." -/
def archStop (k : Key) (w : World) : World × Reply :=
  let old := regLookup k w.reg
  let w1 := { w with reg := regErase k w.reg }
  match old with
  | some tid =>
    if taskDone (w.status tid) then (w1, Reply.nothingToStop)
    else (cancelTask tid w1, Reply.stopped)
  | none => (w1, Reply.nothingToStop)

/-- Python `s.lower()`, on the character sequence of the string. -/
def pyLower (s : String) : String :=
  String.mk (s.data.map Char.toLower)

/-- Whether a character is stripped by Python `s.strip()`. -/
def isPySpace (c : Char) : Bool :=
  c == ' ' || c == '\t' || c == '\n' || c == '\r'

/-- Python `s.strip()`: drop leading and trailing whitespace. -/
def pyStrip (s : String) : String :=
  String.mk (((s.data.dropWhile isPySpace).reverse.dropWhile isPySpace).reverse)

/-- The `/archieved` command handler (bot.py lines 74-172). `srcOk` is
whether `get_text_channel(SOURCE_CHANNEL_ID)` succeeds, `outOk` whether the
resolved output channel is a text channel. -/
def archieved (ownerId callerId : Nat) (guildId : Option Nat) (mode : String)
    (srcOk outOk : Bool) (w : World) : World × Reply :=
  if deny_if_not_owner ownerId callerId then (w, Reply.ownerOnly)
  else
    let m := pyStrip (pyLower mode)
    if m ≠ "start" ∧ m ≠ "stop" then (w, Reply.badMode)
    else
      let key : Key := (guildId.getD 0, callerId)
      if m = "stop" then archStop key w
      else
        if !srcOk then (w, Reply.srcError)
        else if !outOk then (w, Reply.outError)
        else (archStart key w, Reply.started)

/-! ## Lemmas about the extractor -/

theorem msgImageUrl_eq_none_iff (m : Message) :
    msgImageUrl m = none ↔
      m.attachments.find? isImageAttachment = none ∧
      m.embeds.findSome? embedImageUrl = none := by
  unfold msgImageUrl
  cases hA : m.attachments.find? isImageAttachment with
  | some a => simp
  | none =>
    cases hE : m.embeds.findSome? embedImageUrl with
    | some u => simp
    | none => simp

theorem scanImages_eq_none (l : List Message) (h : ∀ m ∈ l, hasImage m = false) :
    scanImages l = (none, none) := by
  induction l with
  | nil => rfl
  | cons a rest ih =>
    have ha : hasImage a = false := h a (List.mem_cons_self a rest)
    have hnone : msgImageUrl a = none := by
      unfold hasImage at ha
      exact Option.not_isSome_iff_eq_none.mp (by simp [ha])
    obtain ⟨hA, hE⟩ := (msgImageUrl_eq_none_iff a).mp hnone
    unfold scanImages
    rw [hA, hE]
    exact ih (fun m hm => h m (List.mem_cons_of_mem a hm))

theorem scanImages_eq_found (l : List Message) (m : Message) (u : String)
    (hfind : l.find? hasImage = some m) (hurl : msgImageUrl m = some u) :
    scanImages l = (some (mkSig m.id (editedOf m) u), some u) := by
  induction l with
  | nil => simp [List.find?] at hfind
  | cons a rest ih =>
    cases ha : hasImage a with
    | true =>
      rw [List.find?_cons_of_pos _ ha] at hfind
      have hma : a = m := by injection hfind
      subst hma
      unfold scanImages
      unfold msgImageUrl at hurl
      cases hA : a.attachments.find? isImageAttachment with
      | some att =>
        rw [hA] at hurl
        have huu : att.url = u := by injection hurl
        subst huu
        rfl
      | none =>
        rw [hA] at hurl
        cases hE : a.embeds.findSome? embedImageUrl with
        | some u' =>
          rw [hE] at hurl
          have huu : u' = u := by injection hurl
          subst huu
          rfl
        | none => rw [hE] at hurl; exact absurd hurl (by simp)
    | false =>
      rw [List.find?_cons_of_neg _ (by simp [ha])] at hfind
      have hnone : msgImageUrl a = none := by
        unfold hasImage at ha
        exact Option.not_isSome_iff_eq_none.mp (by simp [ha])
      obtain ⟨hA, hE⟩ := (msgImageUrl_eq_none_iff a).mp hnone
      unfold scanImages
      rw [hA, hE]
      exact ih hfind

theorem scanImages_sig_form (l : List Message) (s : String) (r : Option String)
    (h : scanImages l = (some s, r)) :
    ∃ m u, m ∈ l ∧ msgImageUrl m = some u ∧
      s = mkSig m.id (editedOf m) u ∧ r = some u := by
  induction l with
  | nil => simp [scanImages] at h
  | cons a rest ih =>
    unfold scanImages at h
    cases hA : a.attachments.find? isImageAttachment with
    | some att =>
      rw [hA] at h
      refine ⟨a, att.url, List.mem_cons_self a rest, ?_, ?_, ?_⟩
      · unfold msgImageUrl; rw [hA]
      · have h1 : some (mkSig a.id (editedOf a) att.url) = some s := by
          injection h
        have h1' : mkSig a.id (editedOf a) att.url = s := by injection h1
        exact h1'.symm
      · have h2 : some att.url = r := by injection h
        exact h2.symm
    | none =>
      rw [hA] at h
      cases hE : a.embeds.findSome? embedImageUrl with
      | some u' =>
        rw [hE] at h
        refine ⟨a, u', List.mem_cons_self a rest, ?_, ?_, ?_⟩
        · unfold msgImageUrl; rw [hA, hE]
        · have h1 : some (mkSig a.id (editedOf a) u') = some s := by injection h
          have h1' : mkSig a.id (editedOf a) u' = s := by injection h1
          exact h1'.symm
        · have h2 : some u' = r := by injection h
          exact h2.symm
      | none =>
        rw [hE] at h
        obtain ⟨m, u, hm, h1, h2, h3⟩ := ih h
        exact ⟨m, u, List.mem_cons_of_mem a hm, h1, h2, h3⟩

/-! ## The decimal rendering used by `mkSig`: no colon, injective -/

/-- The numeric value of a decimal digit character. -/
def digitVal (c : Char) : Nat :=
  c.toNat - 48

/-- The value of a most-significant-first digit list. -/
def valOfDigits (l : List Char) : Nat :=
  l.foldl (fun a c => a * 10 + digitVal c) 0

theorem digitVal_digitChar (m : Nat) (h : m < 10) :
    digitVal (Nat.digitChar m) = m := by
  interval_cases m <;> decide

theorem digitChar_ne_colon (m : Nat) (h : m < 10) : Nat.digitChar m ≠ ':' := by
  interval_cases m <;> decide

theorem foldl_digits_shift (l : List Char) (b : Nat) :
    l.foldl (fun a c => a * 10 + digitVal c) b =
      b * 10 ^ l.length + valOfDigits l := by
  induction l generalizing b with
  | nil => simp [valOfDigits]
  | cons c cs ih =>
    have hl : List.foldl (fun a c => a * 10 + digitVal c) b (c :: cs)
        = (b * 10 + digitVal c) * 10 ^ cs.length + valOfDigits cs := by
      simp only [List.foldl_cons]
      exact ih (b * 10 + digitVal c)
    have hr : valOfDigits (c :: cs)
        = (0 * 10 + digitVal c) * 10 ^ cs.length + valOfDigits cs := by
      unfold valOfDigits
      simp only [List.foldl_cons]
      exact ih (0 * 10 + digitVal c)
    rw [hl, hr, List.length_cons]
    ring

theorem valOfDigits_cons (c : Char) (l : List Char) :
    valOfDigits (c :: l) = digitVal c * 10 ^ l.length + valOfDigits l := by
  have h : valOfDigits (c :: l)
      = (0 * 10 + digitVal c) * 10 ^ l.length + valOfDigits l := by
    unfold valOfDigits
    simp only [List.foldl_cons]
    exact foldl_digits_shift l (0 * 10 + digitVal c)
  rw [h]
  ring

theorem toDigitsCore_val (fuel : Nat) :
    ∀ (n : Nat) (ds : List Char), n < 10 ^ fuel →
      valOfDigits (Nat.toDigitsCore 10 fuel n ds) =
        n * 10 ^ ds.length + valOfDigits ds := by
  induction fuel with
  | zero =>
    intro n ds hn
    have hn0 : n = 0 := by simpa using hn
    subst hn0
    simp [Nat.toDigitsCore]
  | succ f ih =>
    intro n ds hn
    simp only [Nat.toDigitsCore]
    by_cases hq : n / 10 = 0
    · rw [if_pos hq]
      rw [valOfDigits_cons, digitVal_digitChar _ (Nat.mod_lt n (by norm_num))]
      have hn10 : n % 10 = n := by omega
      rw [hn10]
    · rw [if_neg hq]
      have hdiv : n / 10 < 10 ^ f := by
        rw [Nat.div_lt_iff_lt_mul (by norm_num)]
        calc n < 10 ^ (f + 1) := hn
          _ = 10 ^ f * 10 := by ring
      rw [ih (n / 10) _ hdiv, valOfDigits_cons,
        digitVal_digitChar _ (Nat.mod_lt n (by norm_num)), List.length_cons]
      have hsplit : n = 10 * (n / 10) + n % 10 := (Nat.div_add_mod n 10).symm ▸ by omega
      calc n / 10 * 10 ^ (ds.length + 1) + (n % 10 * 10 ^ ds.length + valOfDigits ds)
          = (10 * (n / 10) + n % 10) * 10 ^ ds.length + valOfDigits ds := by ring
        _ = n * 10 ^ ds.length + valOfDigits ds := by rw [← hsplit]

theorem valOfDigits_repr (n : Nat) : valOfDigits (Nat.repr n).data = n := by
  have hfuel : n < 10 ^ (n + 1) := by
    calc n < 10 ^ n := Nat.lt_pow_self (by norm_num) n
      _ ≤ 10 ^ (n + 1) := Nat.pow_le_pow_right (by norm_num) (Nat.le_succ n)
  have h := toDigitsCore_val (n + 1) n [] hfuel
  simp only [List.length_nil, pow_zero, Nat.mul_one] at h
  have hval0 : valOfDigits ([] : List Char) = 0 := rfl
  rw [hval0] at h
  unfold Nat.repr Nat.toDigits
  show valOfDigits (Nat.toDigitsCore 10 (n + 1) n []) = n
  omega

theorem repr_injective (a b : Nat) (h : Nat.repr a = Nat.repr b) : a = b := by
  have := congrArg (fun s => valOfDigits s.data) h
  simpa [valOfDigits_repr] using this

theorem toDigitsCore_no_colon (fuel : Nat) :
    ∀ (n : Nat) (ds : List Char), ':' ∉ ds →
      ':' ∉ Nat.toDigitsCore 10 fuel n ds := by
  induction fuel with
  | zero => intro n ds h; simpa [Nat.toDigitsCore] using h
  | succ f ih =>
    intro n ds h
    simp only [Nat.toDigitsCore]
    have hd : ':' ∉ Nat.digitChar (n % 10) :: ds := by
      intro hmem
      rcases List.mem_cons.mp hmem with heq | hin
      · exact digitChar_ne_colon (n % 10) (Nat.mod_lt n (by norm_num)) heq.symm
      · exact h hin
    by_cases hq : n / 10 = 0
    · rw [if_pos hq]; exact hd
    · rw [if_neg hq]; exact ih (n / 10) _ hd

theorem repr_no_colon (n : Nat) : ':' ∉ (Nat.repr n).data := by
  unfold Nat.repr Nat.toDigits
  show ':' ∉ Nat.toDigitsCore 10 (n + 1) n []
  exact toDigitsCore_no_colon (n + 1) n [] (by simp)

theorem colon_split (l1 : List Char) :
    ∀ (l2 r1 r2 : List Char), ':' ∉ l1 → ':' ∉ l2 →
      l1 ++ ':' :: r1 = l2 ++ ':' :: r2 → l1 = l2 ∧ r1 = r2 := by
  induction l1 with
  | nil =>
    intro l2 r1 r2 _ h2 h
    cases l2 with
    | nil => simpa using h
    | cons b bs =>
      simp only [List.nil_append, List.cons_append, List.cons.injEq] at h
      exact absurd (List.mem_cons_self b bs) (h.1 ▸ h2)
  | cons a as ih =>
    intro l2 r1 r2 h1 h2 h
    cases l2 with
    | nil =>
      simp only [List.nil_append, List.cons_append, List.cons.injEq] at h
      exact absurd (List.mem_cons_self a as) (h.1.symm ▸ h1)
    | cons b bs =>
      simp only [List.cons_append, List.cons.injEq] at h
      obtain ⟨hab, hrest⟩ := h
      have h1' : ':' ∉ as := fun hm => h1 (List.mem_cons_of_mem a hm)
      have h2' : ':' ∉ bs := fun hm => h2 (List.mem_cons_of_mem b hm)
      obtain ⟨he, hr⟩ := ih bs r1 r2 h1' h2' hrest
      exact ⟨by rw [hab, he], hr⟩

theorem mkSig_data (i e : Nat) (u : String) :
    (mkSig i e u).data =
      (Nat.repr i).data ++ ':' :: ((Nat.repr e).data ++ ':' :: u.data) := by
  unfold mkSig
  simp [String.data_append]

theorem mkSig_injective (i e : Nat) (u : String) (i' e' : Nat) (u' : String)
    (h : mkSig i e u = mkSig i' e' u') : i = i' ∧ e = e' ∧ u = u' := by
  have hd := congrArg String.data h
  rw [mkSig_data, mkSig_data] at hd
  obtain ⟨hi, hrest⟩ :=
    colon_split _ _ _ _ (repr_no_colon i) (repr_no_colon i') hd
  obtain ⟨he, hu⟩ :=
    colon_split _ _ _ _ (repr_no_colon e) (repr_no_colon e') hrest
  exact ⟨repr_injective _ _ (String.ext hi), repr_injective _ _ (String.ext he),
    String.ext hu⟩

theorem mkSig_ne_empty (i e : Nat) (u : String) : mkSig i e u ≠ "" := by
  intro h
  have hd := congrArg String.data h
  rw [mkSig_data] at hd
  have : (Nat.repr i).data ++ ':' :: ((Nat.repr e).data ++ ':' :: u.data) ≠ [] := by
    simp
  exact this hd

/-! ## Lemmas about one `runner` cycle -/

theorem find_sig_ne_empty (h : List Message) (s : String) (r : Option String)
    (hf : find_latest_image h = (some s, r)) : s ≠ "" := by
  obtain ⟨m, u, _, _, hs, _⟩ := scanImages_sig_form _ s r hf
  rw [hs]
  exact mkSig_ne_empty _ _ _

theorem runnerStep_changed (env : CycleEnv) (h : List Message) (s u : String)
    (l : Option String) (hex : env.extract = Outcome.ok h)
    (hf : find_latest_image h = (some s, some u)) (hu : u ≠ "")
    (hne : some s ≠ l) :
    runnerStep env l =
      match env.fetch with
      | Outcome.cancelled => (none, [])
      | Outcome.err => warnStep env.warn env.sleepCancelled l []
      | Outcome.ok _ =>
        match env.send with
        | Outcome.cancelled => (none, [])
        | Outcome.err => warnStep env.warn env.sleepCancelled l []
        | Outcome.ok _ => sleepStep env.sleepCancelled (some s) [Event.repost] := by
  have hs : s ≠ "" := find_sig_ne_empty h s (some u) hf
  unfold runnerStep
  rw [hex]
  simp only [hf]
  have h1 : pyTruthy (some s) = true := by simp [pyTruthy, hs]
  have h2 : pyTruthy (some u) = true := by simp [pyTruthy, hu]
  have h3 : ((some s : Option String) == l) = false := by
    simp [beq_eq_false_iff_ne, hne]
  simp only [h1, h2, h3, Bool.not_true, Bool.or_self, Bool.false_eq_true,
    if_false]

theorem runnerStep_unchanged (env : CycleEnv) (h : List Message) (s u : String)
    (hex : env.extract = Outcome.ok h)
    (hf : find_latest_image h = (some s, some u)) (hu : u ≠ "") :
    runnerStep env (some s) = sleepStep env.sleepCancelled (some s) [] := by
  have hs : s ≠ "" := find_sig_ne_empty h s (some u) hf
  unfold runnerStep
  rw [hex]
  simp only [hf]
  have h1 : pyTruthy (some s) = true := by simp [pyTruthy, hs]
  have h2 : pyTruthy (some u) = true := by simp [pyTruthy, hu]
  simp only [h1, h2, Bool.not_true, Bool.or_self, Bool.false_eq_true, if_false]
  rw [if_pos (by simp)]

theorem runnerStep_continues (env : CycleEnv) (l : Option String)
    (h1 : env.extract ≠ Outcome.cancelled) (h2 : env.fetch ≠ Outcome.cancelled)
    (h3 : env.send ≠ Outcome.cancelled) (h4 : env.warn ≠ Outcome.cancelled)
    (h5 : env.sleepCancelled = false) :
    (runnerStep env l).1.isSome := by
  obtain ⟨ex, fe, se, wa, sl⟩ := env
  simp only at h1 h2 h3 h4 h5
  subst h5
  unfold runnerStep
  cases ex with
  | cancelled => exact absurd rfl h1
  | err =>
    cases wa with
    | cancelled => exact absurd rfl h4
    | ok _ => simp [warnStep, sleepStep]
    | err => simp [warnStep, sleepStep]
  | ok history =>
    simp only
    split
    · simp [sleepStep]
    · split
      · simp [sleepStep]
      · cases fe with
        | cancelled => exact absurd rfl h2
        | err =>
          cases wa with
          | cancelled => exact absurd rfl h4
          | ok _ => simp [warnStep, sleepStep]
          | err => simp [warnStep, sleepStep]
        | ok _ =>
          cases se with
          | cancelled => exact absurd rfl h3
          | err =>
            cases wa with
            | cancelled => exact absurd rfl h4
            | ok _ => simp [warnStep, sleepStep]
            | err => simp [warnStep, sleepStep]
          | ok _ => simp [sleepStep]

/-! ## Lemmas about the `/archieved` command and the registry -/

theorem archieved_denied (o c : Nat) (g : Option Nat) (mode : String)
    (srcOk outOk : Bool) (w : World) (h : is_owner o c = false) :
    archieved o c g mode srcOk outOk w = (w, Reply.ownerOnly) := by
  unfold archieved
  rw [show deny_if_not_owner o c = true from by simp [deny_if_not_owner, h]]
  simp

theorem archieved_start_eq (o c : Nat) (g : Option Nat) (w : World)
    (hown : is_owner o c = true) :
    archieved o c g "start" true true w =
      (archStart (g.getD 0, c) w, Reply.started) := by
  unfold archieved
  rw [show deny_if_not_owner o c = false from by simp [deny_if_not_owner, hown]]
  have hm : pyStrip (pyLower "start") = "start" := by decide
  simp only [Bool.false_eq_true, if_false, hm]
  rw [if_neg (by decide), if_neg (by decide)]
  simp

theorem archieved_stop_eq (o c : Nat) (g : Option Nat) (srcOk outOk : Bool)
    (w : World) (hown : is_owner o c = true) :
    archieved o c g "stop" srcOk outOk w = archStop (g.getD 0, c) w := by
  unfold archieved
  rw [show deny_if_not_owner o c = false from by simp [deny_if_not_owner, hown]]
  have hm : pyStrip (pyLower "stop") = "stop" := by decide
  simp only [Bool.false_eq_true, if_false, hm]
  rw [if_neg (by decide), if_pos (by decide)]

theorem regLookup_cons_self (k : Key) (t : Nat) (rest : List (Key × Nat)) :
    regLookup k ((k, t) :: rest) = some t := by
  unfold regLookup
  rw [if_pos rfl]

theorem cancelTask_nextId (tid : Nat) (w : World) :
    (cancelTask tid w).nextId = w.nextId := rfl

theorem popAndCancel_nextId (k : Key) (w : World) :
    (popAndCancel k w).nextId = w.nextId := by
  unfold popAndCancel
  cases regLookup k w.reg with
  | none => rfl
  | some tid =>
    simp only
    split <;> rfl

theorem popAndCancel_status_cancels (k : Key) (w : World) (t : Nat)
    (hreg : regLookup k w.reg = some t) (hrun : w.status t = TaskStatus.running) :
    (popAndCancel k w).status t = TaskStatus.cancelledTask := by
  unfold popAndCancel
  rw [hreg]
  simp only
  rw [if_neg (by simp [taskDone, hrun])]
  unfold cancelTask
  simp

theorem popAndCancel_status_other (k : Key) (w : World) (x : Nat)
    (hx : ∀ t, regLookup k w.reg = some t → x ≠ t) :
    (popAndCancel k w).status x = w.status x := by
  unfold popAndCancel
  cases hreg : regLookup k w.reg with
  | none => rfl
  | some tid =>
    simp only
    split
    · rfl
    · unfold cancelTask
      simp only
      rw [if_neg (hx tid hreg)]

theorem archStart_reg (k : Key) (w : World) :
    regLookup k (archStart k w).reg = some w.nextId := by
  unfold archStart
  simp only
  rw [regLookup_cons_self, popAndCancel_nextId]

theorem archStart_nextId (k : Key) (w : World) :
    (archStart k w).nextId = w.nextId + 1 := by
  unfold archStart
  simp only
  rw [popAndCancel_nextId]

theorem archStart_status_new (k : Key) (w : World) :
    (archStart k w).status w.nextId = TaskStatus.running := by
  unfold archStart
  simp only
  rw [popAndCancel_nextId, if_pos rfl]

theorem archStart_status_old (k : Key) (w : World) (t : Nat)
    (hreg : regLookup k w.reg = some t) (hlt : t < w.nextId)
    (hrun : w.status t = TaskStatus.running) :
    (archStart k w).status t = TaskStatus.cancelledTask := by
  unfold archStart
  simp only
  rw [popAndCancel_nextId, if_neg (by omega)]
  exact popAndCancel_status_cancels k w t hreg hrun

theorem archStart_status_frozen (k : Key) (w : World) (x : Nat)
    (hx : x ≠ w.nextId) (hother : ∀ t, regLookup k w.reg = some t → x ≠ t) :
    (archStart k w).status x = w.status x := by
  unfold archStart
  simp only
  rw [popAndCancel_nextId, if_neg hx]
  exact popAndCancel_status_other k w x hother

theorem warnStep_not_cancelled (w : Outcome Unit) (l : Option String)
    (hw : w ≠ Outcome.cancelled) :
    warnStep w false l [] =
      (some l, if w = Outcome.ok () then [Event.warned, Event.slept]
               else [Event.slept]) := by
  cases w with
  | ok a => cases a; simp [warnStep, sleepStep]
  | err => simp [warnStep, sleepStep]
  | cancelled => exact absurd rfl hw

theorem regLookup_erase (k : Key) (reg : List (Key × Nat)) :
    regLookup k (regErase k reg) = none := by
  induction reg with
  | nil => rfl
  | cons p rest ih =>
    obtain ⟨k', t⟩ := p
    unfold regErase
    by_cases hk : k' = k
    · rw [if_pos hk]; exact ih
    · rw [if_neg hk]
      unfold regLookup
      rw [if_neg hk]
      exact ih

/-! ## The claims -/

/-- C1: over the lookback window of the 30 most recent messages scanned
newest first, `find_latest_image` returns `(none, none)` when no message in
the window has an image; otherwise it returns the signature and URL derived
from the newest message having an image, taking that message's first image
attachment before its embeds, and the result does not depend on any older
message. -/
theorem find_latest_image_correct (history : List Message) :
    ((history.take 30).all (fun m => !hasImage m) = true →
      find_latest_image history = (none, none)) ∧
    (∀ m u, (history.take 30).find? hasImage = some m → msgImageUrl m = some u →
      find_latest_image history = (some (mkSig m.id (editedOf m) u), some u)) := by
  constructor
  · intro hall
    apply scanImages_eq_none
    intro m hm
    have := List.all_eq_true.mp hall m hm
    simpa using this
  · intro m u hfind hurl
    exact scanImages_eq_found _ m u hfind hurl

theorem find_latest_image_correct_witness :
    find_latest_image
        [⟨1, none, [], []⟩, ⟨2, none, [⟨some "image/png", "x.png"⟩], []⟩]
      = (some (mkSig 2 0 "x.png"), some "x.png") :=
  (find_latest_image_correct _).2 ⟨2, none, [⟨some "image/png", "x.png"⟩], []⟩
    "x.png" (by decide) (by decide)

/-- C5: every signature the extractor returns is composed exactly of the
message identifier, the last-edit timestamp or zero, and the image URL; two
signatures are equal iff all three components match; and on the history
[msg A (no image), msg B (attachment image "x.png", id 2, never edited)] the
extractor returns signature "2:0:x.png" and url "x.png". -/
theorem signature_components_determine_equality :
    (∀ (i e : Nat) (u : String) (i' e' : Nat) (u' : String),
      mkSig i e u = mkSig i' e' u' ↔ (i = i' ∧ e = e' ∧ u = u')) ∧
    (∀ (history : List Message) (s : String) (r : Option String),
      find_latest_image history = (some s, r) →
      ∃ m u, m ∈ history.take 30 ∧ msgImageUrl m = some u ∧
        s = mkSig m.id (editedOf m) u ∧ r = some u) ∧
    find_latest_image
        [⟨1, none, [], []⟩, ⟨2, none, [⟨some "image/png", "x.png"⟩], []⟩]
      = (some "2:0:x.png", some "x.png") := by
  refine ⟨?_, ?_, by decide⟩
  · intro i e u i' e' u'
    constructor
    · exact mkSig_injective i e u i' e' u'
    · rintro ⟨rfl, rfl, rfl⟩
      rfl
  · intro history s r hf
    exact scanImages_sig_form _ s r hf

theorem signature_components_determine_equality_witness :
    mkSig 2 0 "x.png" ≠ mkSig 3 0 "x.png" := by
  intro hcontra
  have h :=
    (signature_components_determine_equality.1 2 0 "x.png" 3 0 "x.png").mp hcontra
  exact absurd h.1 (by decide)

/-- C2: if two consecutive cycles both extract the same signature (the
underlying image is unchanged) and the first starts from a recorded
signature different from it, then the first cycle reposts once and records
the signature, and the second cycle — now seeing the recorded signature —
sends nothing and changes nothing: exactly one repost across the two
cycles. -/
theorem runner_idempotent_two_cycles (env1 env2 : CycleEnv) (h : List Message)
    (s u : String) (l0 : Option String)
    (hf : find_latest_image h = (some s, some u)) (hu : u ≠ "")
    (hne : some s ≠ l0)
    (he1 : env1.extract = Outcome.ok h) (hf1 : env1.fetch = Outcome.ok ())
    (hs1 : env1.send = Outcome.ok ()) (hc1 : env1.sleepCancelled = false)
    (he2 : env2.extract = Outcome.ok h) (hc2 : env2.sleepCancelled = false) :
    runnerStep env1 l0 = (some (some s), [Event.repost, Event.slept]) ∧
    runnerStep env2 (some s) = (some (some s), [Event.slept]) ∧
    (runnerStep env1 l0).2.count Event.repost
      + (runnerStep env2 (some s)).2.count Event.repost = 1 := by
  have h1 : runnerStep env1 l0 = (some (some s), [Event.repost, Event.slept]) := by
    rw [runnerStep_changed env1 h s u l0 he1 hf hu hne, hf1, hs1]
    simp [sleepStep, hc1]
  have h2 : runnerStep env2 (some s) = (some (some s), [Event.slept]) := by
    rw [runnerStep_unchanged env2 h s u he2 hf hu]
    simp [sleepStep, hc2]
  refine ⟨h1, h2, ?_⟩
  rw [h1, h2]
  simp

theorem runner_idempotent_two_cycles_witness :
    runnerStep ⟨Outcome.ok [⟨2, none, [⟨some "image/png", "x.png"⟩], []⟩],
        Outcome.ok (), Outcome.ok (), Outcome.ok (), false⟩ none
      = (some (some "2:0:x.png"), [Event.repost, Event.slept]) ∧
    runnerStep ⟨Outcome.ok [⟨2, none, [⟨some "image/png", "x.png"⟩], []⟩],
        Outcome.ok (), Outcome.ok (), Outcome.ok (), false⟩ (some "2:0:x.png")
      = (some (some "2:0:x.png"), [Event.slept]) ∧
    (runnerStep ⟨Outcome.ok [⟨2, none, [⟨some "image/png", "x.png"⟩], []⟩],
        Outcome.ok (), Outcome.ok (), Outcome.ok (), false⟩ none).2.count
        Event.repost
      + (runnerStep ⟨Outcome.ok [⟨2, none, [⟨some "image/png", "x.png"⟩], []⟩],
          Outcome.ok (), Outcome.ok (), Outcome.ok (), false⟩
          (some "2:0:x.png")).2.count Event.repost = 1 :=
  runner_idempotent_two_cycles _ _ _ "2:0:x.png" "x.png" none (by decide)
    (by decide) (by decide) rfl rfl rfl rfl rfl rfl

/-- C3: in a cycle that finds a changed signature, the recorded signature is
updated exactly when both the image fetch and the repost succeed; if the
fetch or the send raises, the recorded signature is unchanged and no repost
event occurs, so a later cycle seeing the same history still reposts. -/
theorem sig_updated_only_after_success (env : CycleEnv) (h : List Message)
    (s u : String) (l0 : Option String)
    (hf : find_latest_image h = (some s, some u)) (hu : u ≠ "")
    (hne : some s ≠ l0) (hex : env.extract = Outcome.ok h)
    (hw : env.warn ≠ Outcome.cancelled) (hc : env.sleepCancelled = false) :
    (env.fetch = Outcome.ok () → env.send = Outcome.ok () →
      runnerStep env l0 = (some (some s), [Event.repost, Event.slept])) ∧
    (env.fetch = Outcome.err →
      (runnerStep env l0).1 = some l0 ∧
      Event.repost ∉ (runnerStep env l0).2) ∧
    (env.fetch = Outcome.ok () → env.send = Outcome.err →
      (runnerStep env l0).1 = some l0 ∧
      Event.repost ∉ (runnerStep env l0).2) ∧
    (∀ env' : CycleEnv, env'.extract = Outcome.ok h →
      env'.fetch = Outcome.ok () → env'.send = Outcome.ok () →
      env'.sleepCancelled = false →
      runnerStep env' l0 = (some (some s), [Event.repost, Event.slept])) := by
  have hred := runnerStep_changed env h s u l0 hex hf hu hne
  refine ⟨?_, ?_, ?_, ?_⟩
  · intro hfe hse
    rw [hred, hfe, hse]
    simp [sleepStep, hc]
  · intro hfe
    have hres : runnerStep env l0
        = (some l0,
           if env.warn = Outcome.ok () then [Event.warned, Event.slept]
           else [Event.slept]) := by
      rw [hred, hfe]
      show warnStep env.warn env.sleepCancelled l0 [] = _
      rw [hc]
      exact warnStep_not_cancelled env.warn l0 hw
    rw [hres]
    refine ⟨rfl, ?_⟩
    by_cases hwo : env.warn = Outcome.ok ()
    · rw [if_pos hwo]; simp
    · rw [if_neg hwo]; simp
  · intro hfe hse
    have hres : runnerStep env l0
        = (some l0,
           if env.warn = Outcome.ok () then [Event.warned, Event.slept]
           else [Event.slept]) := by
      rw [hred, hfe, hse]
      show warnStep env.warn env.sleepCancelled l0 [] = _
      rw [hc]
      exact warnStep_not_cancelled env.warn l0 hw
    rw [hres]
    refine ⟨rfl, ?_⟩
    by_cases hwo : env.warn = Outcome.ok ()
    · rw [if_pos hwo]; simp
    · rw [if_neg hwo]; simp
  · intro env' he' hf' hs' hc'
    rw [runnerStep_changed env' h s u l0 he' hf hu hne, hf', hs']
    simp [sleepStep, hc']

theorem sig_updated_only_after_success_witness :
    (runnerStep ⟨Outcome.ok [⟨2, none, [⟨some "image/png", "x.png"⟩], []⟩],
        Outcome.err, Outcome.ok (), Outcome.ok (), false⟩ none).1 = some none ∧
    Event.repost ∉ (runnerStep
        ⟨Outcome.ok [⟨2, none, [⟨some "image/png", "x.png"⟩], []⟩],
          Outcome.err, Outcome.ok (), Outcome.ok (), false⟩ none).2 :=
  (sig_updated_only_after_success _ _ "2:0:x.png" "x.png" none (by decide)
    (by decide) (by decide) rfl (by decide) rfl).2.1 rfl

/-- C6: a non-cancellation exception during a cycle — in the history fetch,
the image fetch, or the repost — leads to a best-effort warning post (a
failing warning post is silently swallowed), leaves the recorded signature
unchanged, and the loop continues into the next cycle after the sleep; it
never terminates the task. -/
theorem cycle_error_warns_and_continues (env : CycleEnv) (h : List Message)
    (s u : String) (l : Option String)
    (hw : env.warn ≠ Outcome.cancelled) (hc : env.sleepCancelled = false) :
    (env.extract = Outcome.err →
      runnerStep env l =
        (some l, if env.warn = Outcome.ok () then [Event.warned, Event.slept]
                 else [Event.slept])) ∧
    (env.extract = Outcome.ok h → find_latest_image h = (some s, some u) →
      u ≠ "" → some s ≠ l → env.fetch = Outcome.err →
      runnerStep env l =
        (some l, if env.warn = Outcome.ok () then [Event.warned, Event.slept]
                 else [Event.slept])) ∧
    (env.extract = Outcome.ok h → find_latest_image h = (some s, some u) →
      u ≠ "" → some s ≠ l → env.fetch = Outcome.ok () →
      env.send = Outcome.err →
      runnerStep env l =
        (some l, if env.warn = Outcome.ok () then [Event.warned, Event.slept]
                 else [Event.slept])) := by
  refine ⟨?_, ?_, ?_⟩
  · intro hex
    unfold runnerStep
    rw [hex, hc]
    exact warnStep_not_cancelled env.warn l hw
  · intro hex hf hu hne hfe
    rw [runnerStep_changed env h s u l hex hf hu hne, hfe, hc]
    exact warnStep_not_cancelled env.warn l hw
  · intro hex hf hu hne hfe hse
    rw [runnerStep_changed env h s u l hex hf hu hne, hfe, hse, hc]
    exact warnStep_not_cancelled env.warn l hw

theorem cycle_error_warns_and_continues_witness :
    runnerStep ⟨Outcome.err, Outcome.ok (), Outcome.ok (), Outcome.ok (),
        false⟩ none
      = (some none, [Event.warned, Event.slept]) := by
  have h := (cycle_error_warns_and_continues
    ⟨Outcome.err, Outcome.ok (), Outcome.ok (), Outcome.ok (), false⟩
    [] "" "" none (by decide) rfl).1 rfl
  simpa using h

/-- C7: cancellation arriving at any awaited point of a cycle terminates the
loop with no further post or sleep, and without any warning post for the
cancellation; and termination happens only when cancellation arrived at one
of the awaited points. -/
theorem cancellation_is_clean_and_terminal (env : CycleEnv) (h : List Message)
    (s u : String) (l : Option String) :
    (env.extract = Outcome.cancelled → runnerStep env l = (none, [])) ∧
    (env.extract = Outcome.ok h → find_latest_image h = (some s, some u) →
      u ≠ "" → some s ≠ l → env.fetch = Outcome.cancelled →
      runnerStep env l = (none, [])) ∧
    (env.extract = Outcome.ok h → find_latest_image h = (some s, some u) →
      u ≠ "" → some s ≠ l → env.fetch = Outcome.ok () →
      env.send = Outcome.cancelled → runnerStep env l = (none, [])) ∧
    (env.extract = Outcome.ok h → find_latest_image h = (some s, some u) →
      u ≠ "" → some s ≠ l → env.fetch = Outcome.ok () →
      env.send = Outcome.ok () → env.sleepCancelled = true →
      runnerStep env l = (none, [Event.repost])) ∧
    ((runnerStep env l).1 = none →
      env.extract = Outcome.cancelled ∨ env.fetch = Outcome.cancelled ∨
      env.send = Outcome.cancelled ∨ env.warn = Outcome.cancelled ∨
      env.sleepCancelled = true) := by
  refine ⟨?_, ?_, ?_, ?_, ?_⟩
  · intro hex
    unfold runnerStep
    rw [hex]
  · intro hex hf hu hne hfe
    rw [runnerStep_changed env h s u l hex hf hu hne, hfe]
  · intro hex hf hu hne hfe hse
    rw [runnerStep_changed env h s u l hex hf hu hne, hfe, hse]
  · intro hex hf hu hne hfe hse hsl
    rw [runnerStep_changed env h s u l hex hf hu hne, hfe, hse, hsl]
    rfl
  · intro hnone
    by_contra hcon
    push_neg at hcon
    obtain ⟨h1, h2, h3, h4, h5⟩ := hcon
    have hcont := runnerStep_continues env l h1 h2 h3 h4 (by simpa using h5)
    rw [hnone] at hcont
    simp at hcont

theorem cancellation_is_clean_and_terminal_witness :
    runnerStep ⟨Outcome.cancelled, Outcome.ok (), Outcome.ok (), Outcome.ok (),
        false⟩ none
      = (none, []) :=
  (cancellation_is_clean_and_terminal _ [] "" "" none).1 rfl

/-- C4: a "start" under a key cancels the live task previously registered
under that key (if any) and registers the fresh task, replacing the entry
unconditionally; two "start" commands with the same key leave exactly one
live task — the first created task ends cancelled, the second is the sole
registered, running one. -/
theorem start_replaces_and_cancels (o c : Nat) (g : Option Nat) (w : World)
    (t : Nat) (hown : is_owner o c = true) :
    (regLookup (g.getD 0, c) ((archieved o c g "start" true true w).1).reg
        = some w.nextId ∧
      ((archieved o c g "start" true true w).1).status w.nextId
        = TaskStatus.running) ∧
    (regLookup (g.getD 0, c) w.reg = some t → t < w.nextId →
      w.status t = TaskStatus.running →
      ((archieved o c g "start" true true w).1).status t
        = TaskStatus.cancelledTask) ∧
    (regLookup (g.getD 0, c)
          ((archieved o c g "start" true true
            ((archieved o c g "start" true true w).1)).1).reg
        = some (w.nextId + 1) ∧
      ((archieved o c g "start" true true
          ((archieved o c g "start" true true w).1)).1).status (w.nextId + 1)
        = TaskStatus.running ∧
      ((archieved o c g "start" true true
          ((archieved o c g "start" true true w).1)).1).status w.nextId
        = TaskStatus.cancelledTask) := by
  rw [archieved_start_eq o c g w hown]
  simp only
  rw [archieved_start_eq o c g (archStart (g.getD 0, c) w) hown]
  simp only
  refine ⟨⟨archStart_reg _ w, archStart_status_new _ w⟩, ?_, ?_, ?_, ?_⟩
  · intro hreg hlt hrun
    exact archStart_status_old _ w t hreg hlt hrun
  · rw [archStart_reg _ (archStart (g.getD 0, c) w), archStart_nextId]
  · have hx := archStart_status_new (g.getD 0, c) (archStart (g.getD 0, c) w)
    rw [archStart_nextId] at hx
    exact hx
  · apply archStart_status_old _ (archStart (g.getD 0, c) w) w.nextId
      (archStart_reg _ w)
    · rw [archStart_nextId]
      omega
    · exact archStart_status_new _ w

theorem start_replaces_and_cancels_witness :
    ((archieved 7 7 (some 1) "start" true true
        ⟨[((1, 7), 0)], fun _ => TaskStatus.running, 1⟩).1).status 0
      = TaskStatus.cancelledTask :=
  (start_replaces_and_cancels 7 7 (some 1)
      ⟨[((1, 7), 0)], fun _ => TaskStatus.running, 1⟩ 0 (by decide)).2.1
    (by decide) (by decide) rfl

/-- C8: "stop" under a key with a live task cancels it, removes it from the
registry, and replies that it stopped; "stop" under a key with no live task
replies "nothing to stop" and cancels nothing (no task status changes). -/
theorem stop_cancels_or_reports_nothing (o c : Nat) (g : Option Nat)
    (srcOk outOk : Bool) (w : World) (t : Nat) (hown : is_owner o c = true) :
    (regLookup (g.getD 0, c) w.reg = some t →
      w.status t = TaskStatus.running →
      (archieved o c g "stop" srcOk outOk w).2 = Reply.stopped ∧
      ((archieved o c g "stop" srcOk outOk w).1).status t
        = TaskStatus.cancelledTask ∧
      regLookup (g.getD 0, c) ((archieved o c g "stop" srcOk outOk w).1).reg
        = none) ∧
    ((∀ t', regLookup (g.getD 0, c) w.reg = some t' →
        taskDone (w.status t') = true) →
      (archieved o c g "stop" srcOk outOk w).2 = Reply.nothingToStop ∧
      ((archieved o c g "stop" srcOk outOk w).1).status = w.status) := by
  rw [archieved_stop_eq o c g srcOk outOk w hown]
  constructor
  · intro hreg hrun
    unfold archStop
    rw [hreg]
    simp only
    rw [if_neg (by simp [taskDone, hrun])]
    refine ⟨rfl, ?_, ?_⟩
    · unfold cancelTask
      simp
    · exact regLookup_erase _ _
  · intro hdead
    unfold archStop
    cases hreg : regLookup (g.getD 0, c) w.reg with
    | none => exact ⟨rfl, rfl⟩
    | some t' =>
      simp only
      rw [if_pos (hdead t' hreg)]
      exact ⟨rfl, rfl⟩

theorem stop_cancels_or_reports_nothing_witness :
    (archieved 7 7 (some 1) "stop" true true
        ⟨[((1, 7), 5)], fun _ => TaskStatus.running, 6⟩).2 = Reply.stopped ∧
    ((archieved 7 7 (some 1) "stop" true true
        ⟨[((1, 7), 5)], fun _ => TaskStatus.running, 6⟩).1).status 5
      = TaskStatus.cancelledTask ∧
    regLookup (1, 7) ((archieved 7 7 (some 1) "stop" true true
        ⟨[((1, 7), 5)], fun _ => TaskStatus.running, 6⟩).1).reg = none :=
  (stop_cancels_or_reports_nothing 7 7 (some 1) true true
      ⟨[((1, 7), 5)], fun _ => TaskStatus.running, 6⟩ 5 (by decide)).1
    (by decide) rfl

/-- C9: any invocation by a caller who is not the configured owner is
rejected with the ephemeral owner-only reply and leaves the world — the
registry and every task status — unchanged. -/
theorem non_owner_command_rejected (o c : Nat) (g : Option Nat) (mode : String)
    (srcOk outOk : Bool) (w : World) (h : is_owner o c = false) :
    archieved o c g mode srcOk outOk w = (w, Reply.ownerOnly) :=
  archieved_denied o c g mode srcOk outOk w h

theorem non_owner_command_rejected_witness :
    archieved 5 3 none "start" true true
        ⟨[], fun _ => TaskStatus.running, 0⟩
      = (⟨[], fun _ => TaskStatus.running, 0⟩, Reply.ownerOnly) :=
  non_owner_command_rejected 5 3 none "start" true true
    ⟨[], fun _ => TaskStatus.running, 0⟩ (by decide)

/-- C10: with the owner identity unconfigured (`BOT_OWNER_ID = 0`),
`is_owner` is false for every caller — including caller id 0 — so every
command invocation is rejected unchanged and no archiver can be started. -/
theorem owner_unset_fails_closed :
    (∀ uid : Nat, is_owner 0 uid = false) ∧
    is_owner 0 0 = false ∧
    (∀ (uid : Nat) (g : Option Nat) (mode : String) (srcOk outOk : Bool)
      (w : World),
      archieved 0 uid g mode srcOk outOk w = (w, Reply.ownerOnly)) := by
  refine ⟨?_, by decide, ?_⟩
  · intro uid
    simp [is_owner]
  · intro uid g mode srcOk outOk w
    exact archieved_denied 0 uid g mode srcOk outOk w (by simp [is_owner])

end Peru
